import Mathlib

/-!
Shallow embedding of the Hydra sub-kernel binding system of the
jupyterlab-chameleon repository.

Source files embedded:
- src/hydra-kernel/tokens.ts      (data model IBindingModel, ICellMetadata)
- src/hydra-kernel/binding.ts     (BindingRegistry, comm channel handling)
- src/hydra-kernel/cell-metadata.ts (CellMetadata)
- src/hydra-kernel/tokens.ts [second module in file]
                                  (HydraNotebookExtension, Private.updateCellDisplay)

Modelling conventions:
- JavaScript object identity of a kernel connection is a KernelId (Nat);
  the registry Map keyed on connection objects becomes an association list
  in insertion order, matching JS Map iteration order.
- Values that can be undefined at runtime are Option; a thrown TypeError
  (field access on undefined) is Except.error JsError.typeError.
- An ObservableList<IBindingModel> is a list of Option IBindingModel,
  because the code can push an undefined element into the list (see
  applyBindingUpdate below); listId models reference identity of the
  collection instance.
- JSON numbers are modelled as rationals.
-/

set_option linter.unusedVariables false

/-! ### Data model: tokens.ts, IBindingModel -/

inductive BindingConnection where
  /-- connection.type = 'local' (name localConn: local is a Lean keyword) -/
  | localConn : BindingConnection
  /-- connection.type = 'ssh' -/
  | ssh (host : String) (user : Option String) (privateKeyFile : Option String) : BindingConnection
  /-- connection.type = 'zun' -/
  | zun (containerUuid : String) : BindingConnection
deriving DecidableEq, Repr

inductive BindingState where
  | connected
  | disconnected
  | interrupted
  | creating
  | error
deriving DecidableEq, Repr

/-- IBindingProgress; progressAmount is the source field progressRatio
(a JSON number, modelled as a rational). -/
structure IBindingProgress where
  progress : String
  progressAmount : Option Rat
deriving DecidableEq, Repr

/-- IBindingModel from src/hydra-kernel/tokens.ts. -/
structure IBindingModel where
  name : String
  kernel : Option String
  mimeType : Option String
  connection : BindingConnection
  state : BindingState
  progress : IBindingProgress
deriving DecidableEq, Repr

/-- A thrown JavaScript error. typeError is a TypeError from accessing a
property of undefined; jsErr is an explicitly thrown Error with a message. -/
inductive JsError where
  | typeError
  | jsErr (msg : String)
deriving DecidableEq, Repr

/-! ### Binding registry state: binding.ts -/

/-- Reference identity of an IKernelConnection (the Map key in
BindingRegistry._bindings). -/
abbrev KernelId := Nat

/-- An IComm sub-channel; commId is its comm_id on the wire. -/
structure Comm where
  commId : String
deriving DecidableEq, Repr

/-- An ObservableList of bindings. listId models the reference identity of
the list instance; items can hold undefined entries (see the
binding_update handling). -/
structure ObservableBindingList where
  listId : Nat
  items : List (Option IBindingModel)
deriving DecidableEq, Repr

/-- Private.BindingTracker from binding.ts. -/
structure BindingTracker where
  comm : Option Comm
  bindings : ObservableBindingList
deriving DecidableEq, Repr

/-- The mutable state of a BindingRegistry. bindings is the _bindings Map
in insertion order. statusWired and disposedWired record which kernels
currently have the registry's onKernelConnectionStatusChanged and
onKernelDisposed closures connected to their signals. nextListId is a
supply of fresh ObservableList identities. -/
structure RegistryState where
  bindings : List (KernelId × BindingTracker)
  statusWired : List KernelId
  disposedWired : List KernelId
  nextListId : Nat
deriving DecidableEq, Repr

/-- Map.has on the registry's _bindings map. -/
def mapHas (m : List (KernelId × BindingTracker)) (k : KernelId) : Bool :=
  m.any (fun e => e.1 == k)

/-- Map.get on the registry's _bindings map. -/
def mapGet (m : List (KernelId × BindingTracker)) (k : KernelId) :
    Option BindingTracker :=
  (m.find? (fun e => e.1 == k)).map (fun e => e.2)

/-- Map.delete on the registry's _bindings map. -/
def mapDelete (m : List (KernelId × BindingTracker)) (k : KernelId) :
    List (KernelId × BindingTracker) :=
  m.filter (fun e => !(e.1 == k))

/-- Map.set on the registry's _bindings map: replace in place when the key
is present, append otherwise (JS Map keeps insertion order). -/
def mapSet (m : List (KernelId × BindingTracker)) (k : KernelId)
    (t : BindingTracker) : List (KernelId × BindingTracker) :=
  if mapHas m k then m.map (fun e => if e.1 == k then (k, t) else e)
  else m ++ [(k, t)]

/-- Result of BindingRegistry.register: the updated registry state plus the
returned IObservableList reference. -/
structure RegisterResult where
  state : RegistryState
  collection : ObservableBindingList
deriving DecidableEq, Repr

/-- BindingRegistry.register (binding.ts lines 36-83). If the kernel is
already in the map, return the existing tracker's collection and change
nothing. Otherwise create a tracker with comm = null and a fresh empty
ObservableList, connect the connection-status and disposed handlers, and
store the tracker. Note: register itself never calls createComm; the comm
is only created inside onKernelConnectionStatusChanged. -/
def register (s : RegistryState) (k : KernelId) : RegisterResult :=
  match mapGet s.bindings k with
  | some tracker => { state := s, collection := tracker.bindings }
  | none =>
    let tracker : BindingTracker :=
      { comm := none, bindings := { listId := s.nextListId, items := [] } }
    { state :=
        { s with
          bindings := mapSet s.bindings k tracker
          statusWired := s.statusWired ++ [k]
          disposedWired := s.disposedWired ++ [k]
          nextListId := s.nextListId + 1 }
      collection := tracker.bindings }

/-- BindingRegistry.unregister (binding.ts lines 85-97). Disposes the
collection and closes the comm (effects on the discarded objects only) and
deletes the map entry; no-op when not registered. It does not disconnect
the status/disposed handlers (only onKernelDisposed does that). -/
def unregister (s : RegistryState) (k : KernelId) : RegistryState :=
  if mapHas s.bindings k then { s with bindings := mapDelete s.bindings k }
  else s

/-- BindingRegistry.getBindings (binding.ts lines 99-105). -/
def getBindings (s : RegistryState) (k : KernelId) :
    Except JsError ObservableBindingList :=
  match mapGet s.bindings k with
  | none => .error (.jsErr "Kernel not registered")
  | some tracker => .ok tracker.bindings

/-- The onKernelDisposed closure wired by register: disconnects both
handlers and unregisters the kernel. -/
def onKernelDisposed (s : RegistryState) (k : KernelId) : RegistryState :=
  unregister
    { s with
      disposedWired := s.disposedWired.erase k
      statusWired := s.statusWired.erase k } k

/-! ### Connection status handling: binding.ts lines 41-67 -/

/-- The jupyterlab ConnectionStatus type. -/
inductive ConnectionStatus where
  | connecting
  | connected
  | disconnected
deriving DecidableEq, Repr

/-- A message sent with comm.send. The code always sends an object with an
event field and a bindings field (toArray of the tracker's collection). -/
structure OutboundCommMsg where
  event : String
  bindings : List (Option IBindingModel)
deriving DecidableEq, Repr

/-- The onKernelConnectionStatusChanged closure from register (binding.ts
lines 53-67), acting on the tracker it captured. On a transition to
'connected' it disposes any existing comm, creates a fresh comm (createComm
with a fresh comm_id, onMsg bound, open() called) and sends a
binding_list_request whose bindings field is toArray(tracker.bindings).
On any other status it does nothing. -/
def onKernelConnectionStatusChanged (tracker : BindingTracker)
    (status : ConnectionStatus) (freshCommId : String) :
    BindingTracker × List OutboundCommMsg :=
  if status = ConnectionStatus.connected then
    ({ tracker with comm := some { commId := freshCommId } },
      [{ event := "binding_list_request", bindings := tracker.bindings.items }])
  else (tracker, [])

/-! ### Inbound comm message handling: binding.ts lines 107-165 -/

/-- The data payload of an inbound comm message, with exactly the fields
the code reads; each can be absent at runtime. Elements of bindings are
Option because the wire can carry anything. -/
structure CommData where
  event : Option String
  binding : Option IBindingModel
  bindings : Option (List (Option IBindingModel))
deriving DecidableEq, Repr

/-- msg.content of an inbound ICommMsgMsg. -/
structure CommMsgContent where
  comm_id : Option String
  data : Option CommData
deriving DecidableEq, Repr

/-- An inbound ICommMsgMsg; content itself can be absent (the code uses
optional chaining msg?.content?.comm_id). -/
structure CommMsg where
  content : Option CommMsgContent
deriving DecidableEq, Repr

/-- JS truthiness of a possibly-absent string: undefined and the empty
string are falsy. -/
def jsTruthyOptStr : Option String → Bool
  | none => false
  | some s => s ≠ ""

/-- Destructuring the name property (or reading .name) from a
possibly-undefined binding value: throws TypeError on undefined. -/
def jsGetName : Option IBindingModel → Except JsError String
  | none => .error .typeError
  | some b => .ok b.name

/-- findIndex from lumino/algorithm over a binding list, with a predicate
that can throw (index starts at i). Returns -1 when no element matches. -/
def findIndexE (p : Option IBindingModel → Except JsError Bool) :
    List (Option IBindingModel) → Int → Except JsError Int
  | [], _ => .ok (-1)
  | e :: rest, i => do
    if (← p e) then pure i else findIndexE p rest (i + 1)

/-- The findIndex predicate inside locateBinding (binding.ts lines
134-137): destructure name from the element, then compare with
binding.name (which throws when data.binding is undefined). -/
def locatePred (dataBinding : Option IBindingModel)
    (e : Option IBindingModel) : Except JsError Bool := do
  let n ← jsGetName e
  let bn ← jsGetName dataBinding
  pure (n == bn)

/-- The binding_update case of _onCommMsg (binding.ts lines 148-154):
locate by name; replace in place when found, otherwise push. Note that
when data.binding is undefined this pushes an undefined element (empty
collection) or throws inside the predicate (non-empty collection). -/
def applyBindingUpdate (items : List (Option IBindingModel))
    (dataBinding : Option IBindingModel) :
    Except JsError (List (Option IBindingModel)) := do
  let idx ← findIndexE (locatePred dataBinding) items 0
  if idx > -1 then pure (items.set idx.toNat dataBinding)
  else pure (items ++ [dataBinding])

/-- The binding_remove case of _onCommMsg (binding.ts lines 156-161):
locate by name; remove in place when found, otherwise do nothing. -/
def applyBindingRemove (items : List (Option IBindingModel))
    (dataBinding : Option IBindingModel) :
    Except JsError (List (Option IBindingModel)) := do
  let idx ← findIndexE (locatePred dataBinding) items 0
  if idx > -1 then pure (items.eraseIdx idx.toNat)
  else pure items

/-- The binding_list_reply case of _onCommMsg (binding.ts lines 144-147):
clear() then pushAll(data.bindings). pushAll of an undefined value throws
when it is iterated. -/
def applyListReply (items : List (Option IBindingModel))
    (dataBindings : Option (List (Option IBindingModel))) :
    Except JsError (List (Option IBindingModel)) :=
  match dataBindings with
  | none => .error .typeError
  | some l => .ok (([] : List (Option IBindingModel)) ++ l)

/-- The comparison tracker.comm?.commId === commId from
_findTrackerByCommId (binding.ts line 109). -/
def commMatches (t : BindingTracker) (commId : String) : Bool :=
  match t.comm with
  | some c => c.commId == commId
  | none => false

/-- BindingRegistry._findTrackerByCommId (binding.ts lines 107-114): first
tracker in map order whose comm has the given comm_id. The key is kept so
that the in-place mutation of the found tracker can be expressed. -/
def findTrackerByCommId (entries : List (KernelId × BindingTracker))
    (commId : String) : Option (KernelId × BindingTracker) :=
  entries.find? (fun e => commMatches e.2 commId)

/-- Functional rendering of mutating the tracker found by
findTrackerByCommId: replace the first entry whose comm has the given
comm_id. -/
def updateTrackerByCommId (entries : List (KernelId × BindingTracker))
    (commId : String) (t : BindingTracker) :
    List (KernelId × BindingTracker) :=
  match entries with
  | [] => []
  | e :: rest =>
    if commMatches e.2 commId then (e.1, t) :: rest
    else e :: updateTrackerByCommId rest commId t

/-- Helper: store new collection items into a tracker. -/
def trackerWithItems (t : BindingTracker)
    (items : List (Option IBindingModel)) : BindingTracker :=
  { t with bindings := { t.bindings with items := items } }

/-- Helper: commit new collection items for the tracker found by comm_id
(the functional rendering of mutating tracker.bindings in place). -/
def commitItems (s : RegistryState) (commId : String)
    (tracker : BindingTracker) (items : List (Option IBindingModel)) :
    RegistryState :=
  { s with bindings :=
      updateTrackerByCommId s.bindings commId (trackerWithItems tracker items) }

/-- BindingRegistry._onCommMsg (binding.ts lines 116-165). Ignores
messages with a falsy comm_id or from an untracked comm; otherwise
dispatches on data.event, defaulting to a no-op for unknown or missing
events. Errors model uncaught runtime exceptions; on error no state
change has been committed. -/
def onCommMsg (s : RegistryState) (msg : CommMsg) :
    Except JsError RegistryState :=
  let commIdOpt := msg.content.bind (fun c => c.comm_id)
  if !(jsTruthyOptStr commIdOpt) then .ok s
  else
    let commId := commIdOpt.getD ""
    match findTrackerByCommId s.bindings commId with
    | none => .ok s
    | some (_, tracker) =>
      let dataOpt := msg.content.bind (fun c => c.data)
      match dataOpt with
      | none => .ok s
      | some data =>
        match data.event with
        | some "binding_list_reply" => do
          let items ← applyListReply tracker.bindings.items data.bindings
          .ok (commitItems s commId tracker items)
        | some "binding_update" => do
          let items ← applyBindingUpdate tracker.bindings.items data.binding
          .ok (commitItems s commId tracker items)
        | some "binding_remove" => do
          let items ← applyBindingRemove tracker.bindings.items data.binding
          .ok (commitItems s commId tracker items)
        | _ => .ok s

/-! ### Cell metadata: cell-metadata.ts -/

/-- An ICellModel: id models reference identity, cellType is model.type,
sourceText is model.value.text. -/
inductive CellType where
  | code
  | markdown
  | raw
deriving DecidableEq, Repr

structure CellModel where
  id : Nat
  cellType : CellType
  sourceText : String
deriving DecidableEq, Repr

/-- The per-cell persisted metadata restricted to the one namespaced key
chameleon.binding_name that CellMetadata touches: cell id to stored
string value (none = key absent). -/
def MetaStore : Type := Nat → Option String

/-- CellMetadata.hasBinding: cell.metadata.has(key). -/
def hasBinding (meta : MetaStore) (cell : CellModel) : Bool :=
  (meta cell.id).isSome

/-- CellMetadata.getBindingName: cell.metadata.get(key), undefined when
absent. -/
def getBindingName (meta : MetaStore) (cell : CellModel) : Option String :=
  meta cell.id

/-- CellMetadata.setBindingName: cell.metadata.set(key, name). -/
def setBindingName (meta : MetaStore) (cell : CellModel) (name : String) :
    MetaStore :=
  fun i => if i = cell.id then some name else meta i

/-- CellMetadata.removeBinding: cell.metadata.delete(key). -/
def removeBinding (meta : MetaStore) (cell : CellModel) : MetaStore :=
  fun i => if i = cell.id then none else meta i

/-! ### Notebook extension: tokens.ts, HydraNotebookExtension -/

/-- The onCellsChanged closure of HydraNotebookExtension.createNew
(tokens.ts lines 150-182), restricted to its metadata effect. Looks up
the cell at changed.newIndex (undefined access throws if out of range);
returns the metadata unchanged unless the change is an add of a code
cell; the onBindingNameChanged registration only wires display updates
and does not touch metadata. Seeding: when newIndex > 0, the new cell's
source text is empty and it has no binding, read the previous cell's
binding name and copy it only when it is truthy (present and non-empty).
-/
def onCellsChanged (cells : List CellModel) (meta : MetaStore)
    (changedType : String) (newIndex : Nat) : Except JsError MetaStore :=
  match cells.get? newIndex with
  | none => .error .typeError
  | some cellModel =>
    if !(changedType == "add" && cellModel.cellType == CellType.code) then
      .ok meta
    else
      if newIndex > 0 && cellModel.sourceText == ""
          && !(hasBinding meta cellModel) then
        match cells.get? (newIndex - 1) with
        | none => .error .typeError
        | some previousCell =>
          let previousBinding := getBindingName meta previousCell
          if jsTruthyOptStr previousBinding then
            .ok (setBindingName meta cellModel (previousBinding.getD ""))
          else .ok meta
      else .ok meta

/-! ### Cell display: tokens.ts, Private.updateCellDisplay -/

/-- The ten binding display modifier class names (tokens.ts line 89). -/
def CELL_CLASSES : List String :=
  (List.range 10).map (fun n => "chi-binding-" ++ toString n)

/-- A Cell widget restricted to what updateCellDisplay touches: its model,
its CSS class list and its editor model's MIME type. -/
structure CellWidget where
  model : CellModel
  classes : List String
  mimeType : String
deriving Repr

/-- widget.removeClass for each of CELL_CLASSES (tokens.ts line 225). -/
def removeCellClasses (classes : List String) : List String :=
  CELL_CLASSES.foldl (fun cs cls => cs.filter (fun c => !(c == cls))) classes

/-- widget.addClass: appends the class when not already present. -/
def addClass (classes : List String) (cls : String) : List String :=
  if cls ∈ classes then classes else classes ++ [cls]

/-- The findIndex predicate of updateCellDisplay (tokens.ts lines
228-231): destructure name from the element, compare with the cell's
stored binding name (undefined compares unequal to every string). -/
def displayPred (cellBindingName : Option String)
    (e : Option IBindingModel) : Except JsError Bool := do
  let n ← jsGetName e
  pure (some n == cellBindingName)

/-- Private.updateCellDisplay (tokens.ts lines 220-240). Removes all ten
display classes, finds the collection index of the binding whose name
equals the cell's stored binding name, and either applies the class for
index mod 10 and the binding's mimeType (with truthiness defaulting to
shell) or, when not found, sets the python MIME type. -/
def updateCellDisplay (widget : CellWidget) (meta : MetaStore)
    (bindings : List (Option IBindingModel)) : Except JsError CellWidget := do
  let classes0 := removeCellClasses widget.classes
  let cellBindingName := getBindingName meta widget.model
  let indexOf ← findIndexE (displayPred cellBindingName) bindings 0
  if indexOf > -1 then
    match bindings.get? indexOf.toNat with
    | some (some binding) =>
      .ok { widget with
        classes :=
          addClass classes0 (CELL_CLASSES.getD (indexOf.toNat % CELL_CLASSES.length) "")
        mimeType :=
          match binding.mimeType with
          | some m => if m ≠ "" then m else "shell"
          | none => "shell" }
    | _ => .error .typeError
  else
    .ok { widget with classes := classes0, mimeType := "python" }

/-- The onBindingsChanged closure of HydraNotebookExtension.createNew
(tokens.ts lines 119-133): updates the toolbar switcher (display only) and
re-renders every code cell with updateCellDisplay; it performs no
metadata write (see the NOTE in the source), so the metadata store is
returned untouched. -/
def onBindingsChanged (widgets : List CellWidget) (meta : MetaStore)
    (bindings : List (Option IBindingModel)) :
    Except JsError (List CellWidget × MetaStore) := do
  let ws ← widgets.mapM (fun w =>
    if w.model.cellType == CellType.code then updateCellDisplay w meta bindings
    else pure w)
  pure (ws, meta)

/-! ### Helper functions and lemmas for the proofs -/

/-- Index of the first element satisfying q (the reference rendering of a
successful lumino findIndex). -/
def firstIdxWith (q : IBindingModel → Bool) : List IBindingModel → Option Nat
  | [] => none
  | b :: rest => if q b then some 0 else (firstIdxWith q rest).map (fun i => i + 1)

theorem firstIdxWith_get {q : IBindingModel → Bool} :
    ∀ {l : List IBindingModel} {i : Nat}, firstIdxWith q l = some i →
      ∃ b, l.get? i = some b ∧ q b = true := by
  intro l
  induction l with
  | nil => intro i h; simp [firstIdxWith] at h
  | cons b rest ih =>
    intro i h
    by_cases hq : q b
    · simp [firstIdxWith, hq] at h
      exact ⟨b, by simp [← h], hq⟩
    · simp [firstIdxWith, hq] at h
      obtain ⟨j, hj, rfl⟩ := h
      obtain ⟨x, hx, hqx⟩ := ih hj
      exact ⟨x, by simpa using hx, hqx⟩

theorem firstIdxWith_none {q : IBindingModel → Bool} :
    ∀ {l : List IBindingModel}, firstIdxWith q l = none →
      ∀ b ∈ l, q b = false := by
  intro l
  induction l with
  | nil => intro _ b hb; simp at hb
  | cons a rest ih =>
    intro h b hb
    by_cases hq : q a
    · simp [firstIdxWith, hq] at h
    · simp [firstIdxWith, hq] at h
      rcases List.mem_cons.mp hb with rfl | hmem
      · simpa using hq
      · exact ih h b hmem

theorem findIndexE_map_some {p : Option IBindingModel → Except JsError Bool}
    {q : IBindingModel → Bool}
    (hp : ∀ b : IBindingModel, p (some b) = .ok (q b)) :
    ∀ (l : List IBindingModel) (n : Int),
      findIndexE p (l.map some) n =
        .ok (match firstIdxWith q l with
             | some i => n + (i : Int)
             | none => -1) := by
  intro l
  induction l with
  | nil => intro n; rfl
  | cons b rest ih =>
    intro n
    simp only [List.map_cons, findIndexE, hp, bind, Except.bind]
    by_cases hq : q b
    · simp [firstIdxWith, hq, pure, Except.pure]
    · simp only [hq, Bool.false_eq_true, if_false, ih (n + 1), firstIdxWith]
      cases hrest : firstIdxWith q rest with
      | none => simp [hq, hrest]
      | some j => simp [hq, hrest]; ring

/-- Evaluation of applyBindingUpdate on a well-formed collection and a
well-formed update payload: replace the first name match in place, or
append when the name is new. -/
theorem applyBindingUpdate_eq (l : List IBindingModel) (b : IBindingModel) :
    applyBindingUpdate (l.map some) (some b) =
      .ok (match firstIdxWith (fun x => x.name == b.name) l with
           | some i => (l.set i b).map some
           | none => (l ++ [b]).map some) := by
  have hp : ∀ x : IBindingModel,
      locatePred (some b) (some x) = .ok (x.name == b.name) := fun x => rfl
  simp only [applyBindingUpdate, findIndexE_map_some hp, bind, Except.bind]
  cases h : firstIdxWith (fun x => x.name == b.name) l with
  | none => simp [pure, Except.pure]
  | some i =>
    simp [show (-1 : Int) < (i : Int) by omega, pure, Except.pure]

theorem map_name_set (l : List IBindingModel) (i : Nat) (b : IBindingModel)
    (h : ∃ x, l.get? i = some x ∧ x.name = b.name) :
    (l.set i b).map IBindingModel.name = l.map IBindingModel.name := by
  induction l generalizing i with
  | nil => simp at h
  | cons a rest ih =>
    cases i with
    | zero =>
      obtain ⟨x, hx, hname⟩ := h
      simp at hx
      subst hx
      simp [List.set, hname]
    | succ j =>
      simp only [List.get?] at h
      simp [List.set, ih j h]

/-- Folding a sequence of binding_update events into a collection
(repeated application of the binding_update case of _onCommMsg). -/
def applyUpdates (items : List (Option IBindingModel)) :
    List IBindingModel → Except JsError (List (Option IBindingModel))
  | [] => .ok items
  | b :: rest => do
    let items2 ← applyBindingUpdate items (some b)
    applyUpdates items2 rest

theorem applyUpdates_names_nodup :
    ∀ (bs : List IBindingModel) (l : List IBindingModel),
      (l.map IBindingModel.name).Nodup →
      ∃ l2 : List IBindingModel,
        applyUpdates (l.map some) bs = .ok (l2.map some) ∧
        (l2.map IBindingModel.name).Nodup := by
  intro bs
  induction bs with
  | nil => intro l hl; exact ⟨l, rfl, hl⟩
  | cons b rest ih =>
    intro l hl
    simp only [applyUpdates, applyBindingUpdate_eq, bind, Except.bind]
    cases h : firstIdxWith (fun x => x.name == b.name) l with
    | some i =>
      have hget := firstIdxWith_get h
      have hnames : (l.set i b).map IBindingModel.name
          = l.map IBindingModel.name := by
        apply map_name_set
        obtain ⟨x, hx, hqx⟩ := hget
        exact ⟨x, hx, by simpa using hqx⟩
      obtain ⟨l2, h2, hn2⟩ := ih (l.set i b) (by rw [hnames]; exact hl)
      exact ⟨l2, h2, hn2⟩
    | none =>
      have hfresh : b.name ∉ l.map IBindingModel.name := by
        intro hmem
        obtain ⟨x, hx, hxe⟩ := List.mem_map.mp hmem
        have := firstIdxWith_none h x hx
        simp [hxe] at this
      have hnodup : ((l ++ [b]).map IBindingModel.name).Nodup := by
        simp only [List.map_append, List.map_cons, List.map_nil]
        simp [List.nodup_append, hl, hfresh]
      obtain ⟨l2, h2, hn2⟩ := ih (l ++ [b]) hnodup
      exact ⟨l2, h2, hn2⟩

/-- C3. Names stay unique under binding_update: the code replaces the
first (hence, under the uniqueness invariant, the only) entry whose name
matches, in place, and appends entries with new names; any sequence of
updates starting from the empty collection hence keeps names unique; and
the names a, b, a example leaves exactly the two entries with the entry
named a carrying the last update's attributes. -/
theorem bindingUpdate_upsert :
    (∀ (l : List IBindingModel) (b : IBindingModel),
      applyBindingUpdate (l.map some) (some b) =
        .ok (match firstIdxWith (fun x => x.name == b.name) l with
             | some i => (l.set i b).map some
             | none => (l ++ [b]).map some)) ∧
    (∀ (l : List IBindingModel) (b : IBindingModel) (i : Nat),
      (l.map IBindingModel.name).Nodup →
      firstIdxWith (fun x => x.name == b.name) l = some i →
        (l.set i b).length = l.length ∧
        ((l.set i b).map IBindingModel.name).Nodup) ∧
    (∀ (bs : List IBindingModel),
      ∃ l2 : List IBindingModel,
        applyUpdates [] bs = .ok (l2.map some) ∧
        (l2.map IBindingModel.name).Nodup) ∧
    (∀ b1 b2 b3 : IBindingModel,
      b1.name = "a" → b2.name = "b" → b3.name = "a" →
        applyUpdates [] [b1, b2, b3] = .ok [some b3, some b2]) := by
  refine ⟨fun l b => applyBindingUpdate_eq l b, ?_, ?_, ?_⟩
  · intro l b i hl h
    constructor
    · exact List.length_set l i b
    · have hnames : (l.set i b).map IBindingModel.name
          = l.map IBindingModel.name := by
        apply map_name_set
        obtain ⟨x, hx, hqx⟩ := firstIdxWith_get h
        exact ⟨x, hx, by simpa using hqx⟩
      rw [hnames]; exact hl
  · intro bs
    simpa using applyUpdates_names_nodup bs []
  · intro b1 b2 b3 h1 h2 h3
    have u1 : applyBindingUpdate ([] : List (Option IBindingModel)) (some b1)
        = .ok [some b1] := by
      simpa [firstIdxWith] using applyBindingUpdate_eq [] b1
    have u2 : applyBindingUpdate [some b1] (some b2)
        = .ok [some b1, some b2] := by
      have hfi : firstIdxWith (fun x => x.name == b2.name) [b1] = none := by
        simp [firstIdxWith, h1, h2]
      have h := applyBindingUpdate_eq [b1] b2
      rw [hfi] at h
      simpa using h
    have u3 : applyBindingUpdate [some b1, some b2] (some b3)
        = .ok [some b3, some b2] := by
      have hfi : firstIdxWith (fun x => x.name == b3.name) [b1, b2]
          = some 0 := by
        simp [firstIdxWith, h1, h3]
      have h := applyBindingUpdate_eq [b1, b2] b3
      rw [hfi] at h
      simpa [List.set] using h
    simp only [applyUpdates, List.map_nil, u1, u2, u3, bind, Except.bind]

/-- Witness for bindingUpdate_upsert at concrete bindings named a, b, a. -/
theorem bindingUpdate_upsert_witness :
    applyUpdates []
      [{ name := "a", kernel := none, mimeType := none,
         connection := BindingConnection.localConn,
         state := BindingState.creating, progress := { progress := "p1", progressAmount := none } },
       { name := "b", kernel := none, mimeType := none,
         connection := BindingConnection.localConn,
         state := BindingState.creating, progress := { progress := "p2", progressAmount := none } },
       { name := "a", kernel := none, mimeType := some "text/x-sh",
         connection := BindingConnection.localConn,
         state := BindingState.connected, progress := { progress := "p3", progressAmount := none } }]
    = .ok
      [some { name := "a", kernel := none, mimeType := some "text/x-sh",
              connection := BindingConnection.localConn,
              state := BindingState.connected, progress := { progress := "p3", progressAmount := none } },
       some { name := "b", kernel := none, mimeType := none,
              connection := BindingConnection.localConn,
              state := BindingState.creating, progress := { progress := "p2", progressAmount := none } }] :=
  bindingUpdate_upsert.2.2.2 _ _ _ rfl rfl rfl

/-- Build an inbound comm message with a comm_id and a data payload. -/
def mkCommMsg (cid : String) (data : Option CommData) : CommMsg :=
  { content := some { comm_id := some cid, data := data } }

theorem findTrackerByCommId_update
    {m : List (KernelId × BindingTracker)} {cid : String} {k : KernelId}
    {t t' : BindingTracker}
    (h : findTrackerByCommId m cid = some (k, t)) (hcomm : t'.comm = t.comm) :
    findTrackerByCommId (updateTrackerByCommId m cid t') cid
      = some (k, t') := by
  induction m with
  | nil => simp [findTrackerByCommId] at h
  | cons e rest ih =>
    by_cases he : commMatches e.2 cid
    · simp only [findTrackerByCommId, List.find?, he, if_pos] at h
      simp only [updateTrackerByCommId, he, if_pos]
      have hm : commMatches t' cid = true := by
        have ht : e.2 = t := by
          have := congrArg (fun x => Prod.snd (Option.getD x (0, e.2))) h
          simpa using this
        simp only [commMatches, hcomm, ← ht]
        exact he
      have hk : e.1 = k := by
        have := congrArg (fun x => Prod.fst (Option.getD x (e.1, e.2))) h
        simpa using this
      simp [findTrackerByCommId, List.find?, hm, hk]
    · simp only [findTrackerByCommId, List.find?] at h
      rw [Bool.eq_false_iff.mpr he] at h
      simp only [updateTrackerByCommId, he, if_neg, Bool.false_eq_true,
        not_false_iff]
      simp only [findTrackerByCommId, List.find?]
      rw [Bool.eq_false_iff.mpr he]
      exact ih h

/-- C4. A binding_list_reply always wins: processing it replaces the found
tracker's collection contents with exactly the reply's list, whatever the
prior contents were; in particular a binding inserted by an earlier
binding_update does not survive (concrete conjunct: update x then reply
with only y leaves exactly y). -/
theorem bindingListReply_wins :
    (∀ (s : RegistryState) (cid : String) (k : KernelId) (t : BindingTracker)
       (L : List (Option IBindingModel)),
       cid ≠ "" →
       findTrackerByCommId s.bindings cid = some (k, t) →
       onCommMsg s (mkCommMsg cid
           (some { event := some "binding_list_reply", binding := none,
                   bindings := some L }))
         = .ok (commitItems s cid t L) ∧
       findTrackerByCommId (commitItems s cid t L).bindings cid
         = some (k, trackerWithItems t L)) ∧
    (∀ x y : IBindingModel,
      ((onCommMsg
          { bindings := [(0, { comm := some { commId := "c" },
                               bindings := { listId := 0, items := [] } })],
            statusWired := [0], disposedWired := [0], nextListId := 1 }
          (mkCommMsg "c"
            (some { event := some "binding_update", binding := some x,
                    bindings := none }))).bind
        (fun s2 => onCommMsg s2 (mkCommMsg "c"
            (some { event := some "binding_list_reply", binding := none,
                    bindings := some [some y] })))).map
        (fun s3 => (mapGet s3.bindings 0).map (fun t => t.bindings.items))
      = .ok (some [some y])) := by
  constructor
  · intro s cid k t L hcid h
    constructor
    · have htruthy : jsTruthyOptStr (some cid) = true := by
        simp [jsTruthyOptStr, hcid]
      simp only [onCommMsg, mkCommMsg, Option.bind, htruthy, Bool.not_true,
        Bool.false_eq_true, if_false, Option.getD, h, applyListReply,
        List.nil_append, bind, Except.bind]
    · exact findTrackerByCommId_update h rfl
  · intro x y
    simp [onCommMsg, mkCommMsg, jsTruthyOptStr, findTrackerByCommId,
      commMatches, applyBindingUpdate, findIndexE, applyListReply,
      commitItems, updateTrackerByCommId, trackerWithItems, mapGet,
      bind, Except.bind, pure, Except.pure, Option.getD, Except.map,
      List.find?]

/-- A concrete binding with a given name and default attributes, for
concrete evaluations. -/
def mkBinding (nm : String) : IBindingModel :=
  { name := nm, kernel := none, mimeType := none,
    connection := BindingConnection.localConn,
    state := BindingState.connected,
    progress := { progress := "", progressAmount := none } }

/-- A concrete registry with one kernel (id 4) whose comm has comm_id cw
and whose collection holds one stale binding. -/
def exampleRegistry : RegistryState :=
  { bindings :=
      [(4, { comm := some { commId := "cw" },
             bindings := { listId := 2, items := [some (mkBinding "stale")] } })],
    statusWired := [4], disposedWired := [4], nextListId := 5 }

/-- Witness for bindingListReply_wins: a registered comm with a stale
item; the reply replaces the whole contents. -/
theorem bindingListReply_wins_witness :
    onCommMsg exampleRegistry
      (mkCommMsg "cw"
        (some { event := some "binding_list_reply", binding := none,
                bindings := some [] }))
    = .ok
      { bindings :=
          [(4, { comm := some { commId := "cw" },
                 bindings := { listId := 2, items := [] } })],
        statusWired := [4], disposedWired := [4], nextListId := 5 } := by
  have h := (bindingListReply_wins.1 exampleRegistry "cw" 4
    { comm := some { commId := "cw" },
      bindings := { listId := 2, items := [some (mkBinding "stale")] } }
    [] (by decide) (by decide)).1
  rw [h]
  rfl

theorem mapHas_eq_isSome (m : List (KernelId × BindingTracker))
    (k : KernelId) : mapHas m k = (mapGet m k).isSome := by
  induction m with
  | nil => rfl
  | cons e rest ih =>
    cases he : (e.1 == k) with
    | true => simp [mapHas, mapGet, List.find?, he]
    | false =>
      simp only [mapHas, mapGet, List.any_cons, List.find?, he,
        Bool.false_or] at *
      exact ih

theorem mapGet_append_fresh (m : List (KernelId × BindingTracker))
    (k : KernelId) (t : BindingTracker) (h : mapGet m k = none) :
    mapGet (m ++ [(k, t)]) k = some t := by
  induction m with
  | nil => simp [mapGet, List.find?]
  | cons e rest ih =>
    cases he : (e.1 == k) with
    | true => simp [mapGet, List.find?, he] at h
    | false =>
      simp only [mapGet, List.find?, List.cons_append, he] at h ⊢
      exact ih h

/-- A tracker as register freshly creates it: no comm, empty list. -/
def emptyTracker (lid : Nat) : BindingTracker :=
  { comm := none, bindings := { listId := lid, items := [] } }

/-- The registry as constructed by the binding-registry plugin: empty map,
nothing wired. -/
def emptyRegistry : RegistryState :=
  { bindings := [], statusWired := [], disposedWired := [], nextListId := 0 }

theorem register_existing (s : RegistryState) (k : KernelId)
    (t : BindingTracker) (h : mapGet s.bindings k = some t) :
    register s k = { state := s, collection := t.bindings } := by
  simp [register, h]

theorem register_fresh (s : RegistryState) (k : KernelId)
    (h : mapGet s.bindings k = none) :
    register s k =
      { state :=
          { bindings := s.bindings ++ [(k, emptyTracker s.nextListId)],
            statusWired := s.statusWired ++ [k],
            disposedWired := s.disposedWired ++ [k],
            nextListId := s.nextListId + 1 },
        collection := { listId := s.nextListId, items := [] } } := by
  simp only [register, h]
  simp [mapSet, mapHas_eq_isSome, h, emptyTracker]

/-- C2. register is idempotent: when the kernel is already in the map,
register returns the very collection instance stored for it and leaves
the registry state (map contents, wired handlers, hence any channel)
completely unchanged; and a second call right after a first registration
returns exactly what the first call returned, with no state change. -/
theorem register_idempotent :
    (∀ (s : RegistryState) (k : KernelId) (t : BindingTracker),
      mapGet s.bindings k = some t →
      register s k = { state := s, collection := t.bindings }) ∧
    (∀ (s : RegistryState) (k : KernelId),
      mapGet s.bindings k = none →
      register (register s k).state k =
        { state := (register s k).state,
          collection := (register s k).collection }) := by
  refine ⟨register_existing, ?_⟩
  intro s k h
  have hcoll : (register s k).collection
      = { listId := s.nextListId, items := [] } := by
    rw [register_fresh s k h]
  have hget : mapGet (register s k).state.bindings k
      = some (emptyTracker s.nextListId) := by
    rw [register_fresh s k h]
    exact mapGet_append_fresh s.bindings k _ h
  have h2 := register_existing (register s k).state k _ hget
  rw [h2, hcoll]
  rfl

/-- Witness for register_idempotent: registering kernel 7 twice in the
empty registry; the second call returns the first call's collection and
keeps the state of the first call. -/
theorem register_idempotent_witness :
    register (register emptyRegistry 7).state 7
      = { state := (register emptyRegistry 7).state,
          collection := { listId := 0, items := [] } } := by
  have h := register_idempotent.2 emptyRegistry 7 (by decide)
  rw [h]
  rfl

/-- C9 counterexample. The claim says the channel is open when register
returns on first registration; but the tracker register stores has
comm = null (the comm is only created later, inside the connection-status
handler on a transition to connected), so no channel is open when
register returns. -/
theorem register_first_counterexample :
    (mapGet (register emptyRegistry 0).state.bindings 0).map
      (fun t => t.comm) = some none := by
  decide

/-- C9 amended. On first registration register creates an empty
collection, wires the connection-status (reconnection) handler and the
disposal handler, and stores a tracker whose comm is null: it does not
open the channel; the channel is first opened by
onKernelConnectionStatusChanged when the connection status transitions
to connected. -/
theorem register_first_amended (s : RegistryState) (k : KernelId)
    (h : mapGet s.bindings k = none) :
    register s k =
      { state :=
          { bindings := s.bindings ++ [(k, emptyTracker s.nextListId)],
            statusWired := s.statusWired ++ [k],
            disposedWired := s.disposedWired ++ [k],
            nextListId := s.nextListId + 1 },
        collection := { listId := s.nextListId, items := [] } } :=
  register_fresh s k h

/-- Witness for register_first_amended on the empty registry. -/
theorem register_first_amended_witness :
    register emptyRegistry 3 =
      { state :=
          { bindings := [(3, emptyTracker 0)],
            statusWired := [3], disposedWired := [3], nextListId := 1 },
        collection := { listId := 0, items := [] } } := by
  have h := register_first_amended emptyRegistry 3 (by decide)
  rw [h]
  rfl

/-- C1 counterexample. The claim says the binding_list_request sent on a
transition to connected carries an empty payload beyond the event field;
but the code sends a bindings field holding toArray(tracker.bindings),
which on a reconnect with a non-empty collection is not empty. -/
theorem bindingListRequest_payload_counterexample :
    (onKernelConnectionStatusChanged
      { comm := none,
        bindings := { listId := 0, items := [some (mkBinding "x")] } }
      ConnectionStatus.connected "c2").2
    = [{ event := "binding_list_request", bindings := [some (mkBinding "x")] }]
    ∧ [some (mkBinding "x")] ≠ ([] : List (Option IBindingModel)) := by
  constructor
  · rfl
  · decide

/-- C1 amended. On every connection-status transition to connected the
handler opens a fresh comm and sends one binding_list_request whose
payload carries a bindings field equal to the collection's current items
(empty only when the collection is empty, e.g. on first connect); on any
other status nothing is sent. -/
theorem bindingListRequest_payload_amended :
    (∀ (t : BindingTracker) (cid : String),
      onKernelConnectionStatusChanged t ConnectionStatus.connected cid =
        ({ t with comm := some { commId := cid } },
         [{ event := "binding_list_request",
            bindings := t.bindings.items }])) ∧
    (∀ (t : BindingTracker) (cid : String) (st : ConnectionStatus),
      st ≠ ConnectionStatus.connected →
      onKernelConnectionStatusChanged t st cid = (t, [])) := by
  constructor
  · intro t cid
    rfl
  · intro t cid st hst
    simp [onKernelConnectionStatusChanged, hst]

/-- Witness for bindingListRequest_payload_amended: an empty tracker on
first connect, and a disconnected transition that sends nothing. -/
theorem bindingListRequest_payload_amended_witness :
    onKernelConnectionStatusChanged (emptyTracker 1)
      ConnectionStatus.connected "c9"
      = ({ comm := some { commId := "c9" },
           bindings := { listId := 1, items := [] } },
         [{ event := "binding_list_request", bindings := [] }])
    ∧ onKernelConnectionStatusChanged (emptyTracker 1)
      ConnectionStatus.disconnected "c9"
      = (emptyTracker 1, []) :=
  ⟨bindingListRequest_payload_amended.1 (emptyTracker 1) "c9",
   bindingListRequest_payload_amended.2 (emptyTracker 1) "c9"
      ConnectionStatus.disconnected (by decide)⟩

/-- The comm_ids of all comms held by registry map entries. -/
def commIds (m : List (KernelId × BindingTracker)) : List String :=
  m.filterMap (fun e => e.2.comm.map (fun c => c.commId))

theorem mapGet_delete (m : List (KernelId × BindingTracker)) (k : KernelId) :
    mapGet (mapDelete m k) k = none := by
  simp only [mapGet]
  have hf : List.find? (fun e => e.1 == k) (mapDelete m k) = none := by
    rw [List.find?_eq_none]
    intro e he
    have := (List.mem_filter.mp he).2
    simp only [Bool.not_eq_eq_eq_not, Bool.not_true] at this
    simp [this]
  rw [hf]
  rfl

theorem findTrackerByCommId_not_mem
    (m : List (KernelId × BindingTracker)) (cid : String)
    (h : cid ∉ commIds m) : findTrackerByCommId m cid = none := by
  simp only [findTrackerByCommId]
  rw [List.find?_eq_none]
  intro e he hmatch
  apply h
  simp only [commMatches] at hmatch
  cases hc : e.2.comm with
  | none => rw [hc] at hmatch; simp at hmatch
  | some c =>
    rw [hc] at hmatch
    have : c.commId = cid := by simpa using hmatch
    subst this
    exact List.mem_filterMap.mpr ⟨e, he, by rw [hc]; rfl⟩

theorem commId_mem_of_mapGet
    (m : List (KernelId × BindingTracker)) (k : KernelId)
    (t : BindingTracker) (c : Comm)
    (ht : mapGet m k = some t) (hc : t.comm = some c) :
    c.commId ∈ commIds m := by
  simp only [mapGet] at ht
  cases hf : m.find? (fun e => e.1 == k) with
  | none => rw [hf] at ht; simp at ht
  | some e =>
    rw [hf] at ht
    have he : e ∈ m := List.mem_of_find?_eq_some hf
    have : e.2 = t := by simpa using ht
    exact List.mem_filterMap.mpr ⟨e, he, by rw [this, hc]; rfl⟩

theorem commIds_delete_sublist (m : List (KernelId × BindingTracker))
    (k : KernelId) : (commIds (mapDelete m k)).Sublist (commIds m) :=
  List.Sublist.filterMap _ (List.filter_sublist m)

theorem findTracker_delete_none :
    ∀ (m : List (KernelId × BindingTracker)) (k : KernelId)
      (t : BindingTracker) (c : Comm),
      (commIds m).Nodup → mapGet m k = some t → t.comm = some c →
      findTrackerByCommId (mapDelete m k) c.commId = none := by
  intro m
  induction m with
  | nil => intro k t c _ ht _; simp [mapGet] at ht
  | cons e rest ih =>
    intro k t c hnodup ht hc
    cases he : (e.1 == k) with
    | true =>
      have hte : e.2 = t := by
        simp only [mapGet, List.find?, he] at ht
        simpa using ht
      have hdel : mapDelete (e :: rest) k = mapDelete rest k := by
        simp [mapDelete, List.filter, he]
      have hcids : commIds (e :: rest) = c.commId :: commIds rest := by
        simp [commIds, List.filterMap_cons, hte, hc]
      rw [hcids] at hnodup
      have hnotmem : c.commId ∉ commIds rest :=
        (List.nodup_cons.mp hnodup).1
      have : c.commId ∉ commIds (mapDelete rest k) := fun hmem =>
        hnotmem ((commIds_delete_sublist rest k).mem hmem)
      rw [hdel]
      exact findTrackerByCommId_not_mem _ _ this
    | false =>
      have htrest : mapGet rest k = some t := by
        simp only [mapGet, List.find?, he] at ht
        simpa [mapGet] using ht
      have hdel : mapDelete (e :: rest) k = e :: mapDelete rest k := by
        simp [mapDelete, List.filter, he]
      have hnodup_rest : (commIds rest).Nodup := by
        cases hec : e.2.comm with
        | none => simpa [commIds, List.filterMap_cons, hec] using hnodup
        | some c2 =>
          have : commIds (e :: rest) = c2.commId :: commIds rest := by
            simp [commIds, List.filterMap_cons, hec]
          rw [this] at hnodup
          exact (List.nodup_cons.mp hnodup).2
      rw [hdel]
      simp only [findTrackerByCommId, List.find?]
      cases hm : commMatches e.2 c.commId with
      | false =>
        have := ih k t c hnodup_rest htrest hc
        simpa [findTrackerByCommId] using this
      | true =>
        exfalso
        simp only [commMatches] at hm
        cases hec : e.2.comm with
        | none => rw [hec] at hm; simp at hm
        | some c2 =>
          rw [hec] at hm
          have heq : c2.commId = c.commId := by simpa using hm
          have hhead : commIds (e :: rest) = c2.commId :: commIds rest := by
            simp [commIds, List.filterMap_cons, hec]
          rw [hhead] at hnodup
          have hnotmem := (List.nodup_cons.mp hnodup).1
          exact hnotmem (heq ▸ commId_mem_of_mapGet rest k t c htrest hc)

theorem mapGet_updateTracker_none
    (m : List (KernelId × BindingTracker)) (k : KernelId) (cid : String)
    (t : BindingTracker) (h : mapGet m k = none) :
    mapGet (updateTrackerByCommId m cid t) k = none := by
  induction m with
  | nil => simp [updateTrackerByCommId, mapGet]
  | cons e rest ih =>
    cases he : (e.1 == k) with
    | true => simp [mapGet, List.find?, he] at h
    | false =>
      simp only [mapGet, List.find?, he] at h
      cases hm : commMatches e.2 cid with
      | true => simp [updateTrackerByCommId, hm, mapGet, List.find?, he, h]
      | false =>
        have := ih (by simpa [mapGet] using h)
        simp only [updateTrackerByCommId, hm, Bool.false_eq_true, if_false]
        simpa [mapGet, List.find?, he] using this

theorem onCommMsg_preserves_absent (s : RegistryState) (k : KernelId)
    (msg : CommMsg) (h : mapGet s.bindings k = none) :
    ∀ s2, onCommMsg s msg = .ok s2 → mapGet s2.bindings k = none := by
  intro s2 hmsg
  simp only [onCommMsg] at hmsg
  split at hmsg
  · cases hmsg; exact h
  · split at hmsg
    · cases hmsg; exact h
    · split at hmsg
      · cases hmsg; exact h
      · split at hmsg
        · cases happ : applyListReply _ _ with
          | error e => rw [happ] at hmsg; simp [bind, Except.bind] at hmsg
          | ok items =>
            rw [happ] at hmsg
            simp only [bind, Except.bind] at hmsg
            cases hmsg
            exact mapGet_updateTracker_none _ _ _ _ h
        · cases happ : applyBindingUpdate _ _ with
          | error e => rw [happ] at hmsg; simp [bind, Except.bind] at hmsg
          | ok items =>
            rw [happ] at hmsg
            simp only [bind, Except.bind] at hmsg
            cases hmsg
            exact mapGet_updateTracker_none _ _ _ _ h
        · cases happ : applyBindingRemove _ _ with
          | error e => rw [happ] at hmsg; simp [bind, Except.bind] at hmsg
          | ok items =>
            rw [happ] at hmsg
            simp only [bind, Except.bind] at hmsg
            cases hmsg
            exact mapGet_updateTracker_none _ _ _ _ h
        · cases hmsg; exact h

/-- C8. Dispose safety: after unregister, the registry holds no entry for
the kernel; any inbound message addressed to the old comm's comm_id is a
no-op on the registry state (the old tracker can no longer be found, so
the disposed collection is never mutated); and no inbound message
whatsoever re-creates an entry for the unregistered kernel. Assumes the
comm_ids held in the registry are pairwise distinct (they are UUIDs). -/
theorem unregister_dispose_safety (s : RegistryState) (k : KernelId)
    (t : BindingTracker) (c : Comm)
    (ht : mapGet s.bindings k = some t) (hc : t.comm = some c)
    (hdist : (commIds s.bindings).Nodup) :
    mapGet (unregister s k).bindings k = none ∧
    (∀ msg : CommMsg,
      msg.content.bind (fun x => x.comm_id) = some c.commId →
      onCommMsg (unregister s k) msg = .ok (unregister s k)) ∧
    (∀ (msg : CommMsg) (s2 : RegistryState),
      onCommMsg (unregister s k) msg = .ok s2 →
      mapGet s2.bindings k = none) := by
  have hhas : mapHas s.bindings k = true := by
    rw [mapHas_eq_isSome, ht]; rfl
  have hub : (unregister s k).bindings = mapDelete s.bindings k := by
    simp [unregister, hhas]
  have habsent : mapGet (unregister s k).bindings k = none := by
    rw [hub]; exact mapGet_delete s.bindings k
  refine ⟨habsent, ?_, ?_⟩
  · intro msg hm
    by_cases hcid : c.commId = ""
    · simp [onCommMsg, hm, jsTruthyOptStr, hcid]
    · have hfind : findTrackerByCommId (unregister s k).bindings c.commId
          = none := by
        rw [hub]
        exact findTracker_delete_none s.bindings k t c hdist ht hc
      simp [onCommMsg, hm, jsTruthyOptStr, hcid, hfind]
  · intro msg s2 hmsg
    exact onCommMsg_preserves_absent (unregister s k) k msg habsent s2 hmsg

/-- Witness for unregister_dispose_safety: one registered kernel, then
unregister; a binding_update addressed to the old comm leaves the state
unchanged. -/
theorem unregister_dispose_safety_witness :
    mapGet (unregister exampleRegistry 4).bindings 4 = none ∧
    onCommMsg (unregister exampleRegistry 4)
      (mkCommMsg "cw"
        (some { event := some "binding_update",
                binding := some (mkBinding "n"), bindings := none }))
      = .ok (unregister exampleRegistry 4) := by
  have h := unregister_dispose_safety exampleRegistry 4
    { comm := some { commId := "cw" },
      bindings := { listId := 2, items := [some (mkBinding "stale")] } }
    { commId := "cw" } (by decide) (by decide) (by decide)
  exact ⟨h.1, h.2.1 _ rfl⟩

/-- C7 (code bug). A binding_update whose data carries no binding field
makes the handler throw: the findIndex predicate reads
binding.name with binding undefined, a TypeError, as soon as the
collection has at least one entry — contradicting the spec's requirement
that malformed inbound events are ignored and never crash the channel.
(With an empty collection the same message instead pushes an undefined
entry into the collection, corrupting it.) -/
theorem commMsg_missing_binding_throws :
    onCommMsg exampleRegistry
      (mkCommMsg "cw"
        (some { event := some "binding_update", binding := none,
                bindings := none }))
      = .error JsError.typeError
    ∧ onCommMsg
        { bindings := [(4, { comm := some { commId := "cw" },
                             bindings := { listId := 2, items := [] } })],
          statusWired := [4], disposedWired := [4], nextListId := 5 }
        (mkCommMsg "cw"
          (some { event := some "binding_update", binding := none,
                  bindings := none }))
      = .ok
        { bindings := [(4, { comm := some { commId := "cw" },
                             bindings := { listId := 2, items := [none] } })],
          statusWired := [4], disposedWired := [4], nextListId := 5 } := by
  constructor
  · rfl
  · rfl

/-- C5 counterexample. The claim says the new cell receives the preceding
cell's binding assignment whenever it is unassigned, empty, and the
predecessor has an assignment; but the code tests the truthiness of the
predecessor's binding name, so a present-but-empty assignment (empty
string) on the predecessor is not copied: here all of the claim's
conditions hold, yet the new cell stays unassigned. -/
theorem seeding_rule_counterexample :
    hasBinding (fun i => if i = 0 then some "" else none)
      { id := 0, cellType := CellType.code, sourceText := "y = 1" } = true
    ∧ hasBinding (fun i => if i = 0 then some "" else none)
      { id := 1, cellType := CellType.code, sourceText := "" } = false
    ∧ (onCellsChanged
        [{ id := 0, cellType := CellType.code, sourceText := "y = 1" },
         { id := 1, cellType := CellType.code, sourceText := "" }]
        (fun i => if i = 0 then some "" else none) "add" 1).map
        (fun m => m 1)
      = .ok none := by
  refine ⟨rfl, rfl, ?_⟩
  rfl

/-- C5 amended. A code cell added at index i is seeded with the
preceding cell's binding assignment if and only if i > 0, the new cell's
source text is empty, the new cell has no assignment, and the preceding
cell's assignment is present and truthy (non-empty); in every other case
the metadata is left untouched. -/
theorem seeding_rule_amended (cells : List CellModel) (meta : MetaStore)
    (i : Nat) (c : CellModel) (hc : cells.get? i = some c)
    (hcode : c.cellType = CellType.code) :
    onCellsChanged cells meta "add" i =
      .ok
        (if 0 < i ∧ c.sourceText = "" ∧ hasBinding meta c = false
            ∧ jsTruthyOptStr
                (getBindingName meta ((cells.get? (i - 1)).getD c)) = true
         then
           setBindingName meta c
             ((getBindingName meta ((cells.get? (i - 1)).getD c)).getD "")
         else meta) := by
  have hlt : i < cells.length := (List.get?_eq_some.mp hc).1
  simp only [onCellsChanged, hc]
  rw [show (!("add" == "add" && (c.cellType == CellType.code))) = false by
    simp [hcode]]
  simp only [Bool.false_eq_true, if_false]
  split
  case isTrue hb =>
    simp only [Bool.and_eq_true, decide_eq_true_eq, beq_iff_eq,
      Bool.not_eq_eq_eq_not, Bool.not_true] at hb
    obtain ⟨⟨h0, hsrc⟩, hhas⟩ := hb
    obtain ⟨p, hp⟩ : ∃ p, cells.get? (i - 1) = some p :=
      ⟨cells.get ⟨i - 1, by omega⟩, List.get?_eq_get (by omega)⟩
    simp only [hp, Option.getD_some]
    split
    case isTrue htr =>
      rw [if_pos ⟨h0, hsrc, hhas, htr⟩]
    case isFalse htr =>
      rw [if_neg]
      intro hand
      exact htr hand.2.2.2
  case isFalse hb =>
    simp only [Bool.and_eq_true, decide_eq_true_eq, beq_iff_eq,
      Bool.not_eq_eq_eq_not, Bool.not_true] at hb
    rw [if_neg]
    intro hand
    exact hb ⟨⟨hand.1, hand.2.1⟩, hand.2.2.1⟩

/-- Witness for seeding_rule_amended: a two-cell notebook whose first
cell is bound to ctx-A; the new empty second cell is seeded with ctx-A.
-/
theorem seeding_rule_amended_witness :
    (onCellsChanged
      [{ id := 0, cellType := CellType.code, sourceText := "a = 1" },
       { id := 1, cellType := CellType.code, sourceText := "" }]
      (fun i => if i = 0 then some "ctx-A" else none) "add" 1).map
      (fun m => m 1)
    = .ok (some "ctx-A") := by
  have h := seeding_rule_amended
    [{ id := 0, cellType := CellType.code, sourceText := "a = 1" },
     { id := 1, cellType := CellType.code, sourceText := "" }]
    (fun i => if i = 0 then some "ctx-A" else none) 1
    { id := 1, cellType := CellType.code, sourceText := "" } rfl rfl
  rw [h]
  rfl

/-- C6. A binding-collection change never touches cell binding metadata:
onBindingsChanged only re-renders displays; the metadata store it leaves
behind is exactly the one it was given, so any cell's stored assignment
(dangling or not) is preserved. -/
theorem bindingsChanged_preserves_assignment
    (widgets : List CellWidget) (meta : MetaStore)
    (bindings : List (Option IBindingModel)) (cell : CellModel) (n : String)
    (h : getBindingName meta cell = some n) :
    ∀ (ws : List CellWidget) (meta2 : MetaStore),
      onBindingsChanged widgets meta bindings = .ok (ws, meta2) →
      meta2 = meta ∧ getBindingName meta2 cell = some n := by
  intro ws meta2 hrun
  simp only [onBindingsChanged, bind, Except.bind] at hrun
  split at hrun
  · cases hrun
  · simp only [pure, Except.pure, Except.ok.injEq, Prod.mk.injEq] at hrun
    obtain ⟨-, hmeta⟩ := hrun
    subst hmeta
    exact ⟨rfl, h⟩

/-- Witness for bindingsChanged_preserves_assignment: a cell bound to
ctx-A keeps its stored assignment after the collection change that
removed the binding (collection now empty). -/
theorem bindingsChanged_preserves_assignment_witness :
    onBindingsChanged
      [{ model := { id := 3, cellType := CellType.code, sourceText := "" },
         classes := [], mimeType := "python" }]
      (fun i => if i = 3 then some "ctx-A" else none) []
      = .ok
        ([{ model := { id := 3, cellType := CellType.code, sourceText := "" },
            classes := [], mimeType := "python" }],
         fun i => if i = 3 then some "ctx-A" else none)
    ∧ getBindingName (fun i => if i = 3 then some "ctx-A" else none)
        { id := 3, cellType := CellType.code, sourceText := "" }
      = some "ctx-A" := by
  constructor
  · rfl
  · exact (bindingsChanged_preserves_assignment
      [{ model := { id := 3, cellType := CellType.code, sourceText := "" },
         classes := [], mimeType := "python" }]
      (fun i => if i = 3 then some "ctx-A" else none) []
      { id := 3, cellType := CellType.code, sourceText := "" } "ctx-A" rfl
      [{ model := { id := 3, cellType := CellType.code, sourceText := "" },
         classes := [], mimeType := "python" }]
      (fun i => if i = 3 then some "ctx-A" else none) rfl).2

theorem mem_foldl_filter (targets : List String) :
    ∀ (cs : List String) (c : String),
      c ∈ targets.foldl (fun a t => a.filter (fun x => !(x == t))) cs →
      c ∈ cs ∧ c ∉ targets := by
  induction targets with
  | nil => intro cs c h; simpa using h
  | cons t ts ih =>
    intro cs c h
    obtain ⟨hmem, hnotts⟩ := ih (cs.filter (fun x => !(x == t))) c h
    have := List.mem_filter.mp hmem
    obtain ⟨hcs, hne⟩ := this
    simp only [Bool.not_eq_eq_eq_not, Bool.not_true, beq_eq_false_iff_ne,
      ne_eq] at hne
    refine ⟨hcs, ?_⟩
    intro hmem2
    rcases List.mem_cons.mp hmem2 with rfl | hmem3
    · exact hne rfl
    · exact hnotts hmem3

theorem removeCellClasses_not_mem (cs : List String) (c : String)
    (h : c ∈ removeCellClasses cs) : c ∉ CELL_CLASSES :=
  (mem_foldl_filter CELL_CLASSES cs c h).2

theorem CELL_CLASSES_getD_mem (j : Nat) (hj : j < 10) :
    CELL_CLASSES.getD j "" ∈ CELL_CLASSES := by
  interval_cases j <;> decide

theorem removeCellClasses_filter_nil (cs : List String) :
    (removeCellClasses cs).filter
      (fun cls => decide (cls ∈ CELL_CLASSES)) = [] := by
  rw [List.filter_eq_nil_iff]
  intro a ha
  simp only [decide_eq_true_eq]
  exact removeCellClasses_not_mem cs a ha

/-- C10 amended. After updateCellDisplay on a well-formed collection the
widget carries at most one of the ten binding display classes; when the
stored name first matches the binding at index i, exactly the class for
i mod 10 is applied and the MIME type is the binding's mimeType when that
is present and non-empty, shell otherwise; when unassigned or dangling no
binding class remains and the MIME type is python. -/
theorem updateCellDisplay_display (widget : CellWidget) (meta : MetaStore)
    (l : List IBindingModel) :
    ∃ w2, updateCellDisplay widget meta (l.map some) = .ok w2 ∧
      (w2.classes.filter (fun cls => decide (cls ∈ CELL_CLASSES))).length ≤ 1
      ∧
      (match firstIdxWith
          (fun b => some b.name == getBindingName meta widget.model) l with
       | some i =>
         ∃ b, l.get? i = some b ∧
           CELL_CLASSES.getD (i % 10) "" ∈ w2.classes ∧
           w2.mimeType = (match b.mimeType with
                          | some m => if m ≠ "" then m else "shell"
                          | none => "shell")
       | none =>
         (∀ cls ∈ CELL_CLASSES, cls ∉ w2.classes) ∧ w2.mimeType = "python")
    := by
  have hp : ∀ b : IBindingModel,
      displayPred (getBindingName meta widget.model) (some b)
        = .ok (some b.name == getBindingName meta widget.model) :=
    fun b => rfl
  have hfind := findIndexE_map_some hp l 0
  cases hfi : firstIdxWith
      (fun b => some b.name == getBindingName meta widget.model) l with
  | none =>
    rw [hfi] at hfind
    have hfind2 : findIndexE (displayPred (getBindingName meta widget.model))
        (l.map some) 0 = .ok (-1) := hfind
    refine ⟨{ widget with
                classes := removeCellClasses widget.classes,
                mimeType := "python" }, ?_, ?_, ?_, rfl⟩
    · simp only [updateCellDisplay, hfind2, bind, Except.bind]
      rw [if_neg (by omega : ¬((-1 : Int) > -1))]
    · simp [removeCellClasses_filter_nil]
    · intro cls hcls hmem
      exact removeCellClasses_not_mem _ _ hmem hcls
  | some i =>
    rw [hfi] at hfind
    have hfind2 : findIndexE (displayPred (getBindingName meta widget.model))
        (l.map some) 0 = .ok (0 + (i : Int)) := hfind
    obtain ⟨b, hb, hqb⟩ := firstIdxWith_get hfi
    have hmem_cls : CELL_CLASSES.getD (i % 10) "" ∈ CELL_CLASSES :=
      CELL_CLASSES_getD_mem (i % 10) (Nat.mod_lt i (by omega))
    have hnotin :
        CELL_CLASSES.getD (i % 10) "" ∉ removeCellClasses widget.classes :=
      fun hmem => removeCellClasses_not_mem _ _ hmem hmem_cls
    refine ⟨{ widget with
                classes := removeCellClasses widget.classes
                  ++ [CELL_CLASSES.getD (i % 10) ""],
                mimeType := match b.mimeType with
                            | some m => if m ≠ "" then m else "shell"
                            | none => "shell" }, ?_, ?_, ?_⟩
    · simp only [updateCellDisplay, hfind2, bind, Except.bind]
      rw [if_pos (by omega : ((0 : Int) + i) > -1)]
      have hget : (l.map some).get? ((0 + (i : Int)).toNat)
          = some (some b) := by
        have htn : ((0 : Int) + i).toNat = i := by omega
        rw [htn, List.get?_map, hb]
        rfl
      rw [hget]
      have hlen : CELL_CLASSES.length = 10 := by decide
      have htn : ((0 : Int) + i).toNat = i := by omega
      rw [htn, hlen]
      have haddcls : addClass (removeCellClasses widget.classes)
          (CELL_CLASSES.getD (i % 10) "")
          = removeCellClasses widget.classes
            ++ [CELL_CLASSES.getD (i % 10) ""] := by
        simp only [addClass]
        rw [if_neg hnotin]
      rw [haddcls]
    · have hfil : ([CELL_CLASSES.getD (i % 10) ""].filter
          (fun cls => decide (cls ∈ CELL_CLASSES)))
          = [CELL_CLASSES.getD (i % 10) ""] := by
        simp only [List.filter_cons, List.filter_nil, decide_eq_true_eq]
        rw [if_pos]
        exact hmem_cls
      rw [List.filter_append, removeCellClasses_filter_nil, hfil]
      simp
    · exact ⟨b, hb, by simp, rfl⟩

/-- C10 counterexample. The claim says the matched cell's editor MIME
type is set to the binding's mimeType, defaulting to shell only when the
binding has none; but the code defaults on any falsy mimeType, so a
binding whose mimeType is present but empty yields shell, not the
binding's mimeType. -/
theorem updateCellDisplay_mime_counterexample :
    (updateCellDisplay
      { model := { id := 9, cellType := CellType.code, sourceText := "" },
        classes := [], mimeType := "python" }
      (fun i => if i = 9 then some "b" else none)
      [some { mkBinding "b" with mimeType := some "" }]).map
      (fun w => w.mimeType)
    = .ok "shell"
    ∧ ({ mkBinding "b" with mimeType := some "" } : IBindingModel).mimeType
      = some ""
    ∧ ("shell" : String) ≠ "" := by
  refine ⟨rfl, rfl, by decide⟩

/-- Witness for updateCellDisplay_display: a cell assigned to the single
binding b0 (no mimeType) gets MIME type shell. -/
theorem updateCellDisplay_display_witness :
    (updateCellDisplay
      { model := { id := 5, cellType := CellType.code, sourceText := "" },
        classes := [], mimeType := "python" }
      (fun i => if i = 5 then some "b0" else none)
      ([mkBinding "b0"].map some)).map (fun w => w.mimeType)
    = .ok "shell" := by
  obtain ⟨w2, hw, hcount, hrest⟩ := updateCellDisplay_display
    { model := { id := 5, cellType := CellType.code, sourceText := "" },
      classes := [], mimeType := "python" }
    (fun i => if i = 5 then some "b0" else none) [mkBinding "b0"]
  rw [show firstIdxWith
      (fun b => some b.name == getBindingName
        (fun i => if i = 5 then some "b0" else none)
        ({ model := { id := 5, cellType := CellType.code, sourceText := "" },
           classes := [], mimeType := "python" } : CellWidget).model)
      [mkBinding "b0"] = some 0 from rfl] at hrest
  obtain ⟨b, hbb, hcls, hmime⟩ := hrest
  have hb : b = mkBinding "b0" := by
    simpa using hbb.symm
  subst hb
  rw [hw]
  simp only [Except.map, hmime, mkBinding]
